import Mathlib

/-!
# Caption Overlay & Crop Compositor — verification development

A shallow embedding of the deterministic image/text compositing pipeline of
the `break_free_content_system` repository:

* `src/lib/overlay-service.ts` — word wrapping (`wrapText`), XML escaping
  (`escapeXml`), SVG text layout (`createTextSvg`), caption compositing
  (`overlayCaption`, `batchOverlayCaptions`) and the pan/zoom-aware crop
  resolver (`applyImageTransformAndCrop`).
* `src/lib/color-service.ts` — accent-color extraction
  (`extractDominantColors`, `extractAccentColor`) and WCAG contrast based
  text-color selection (`getBestTextColor`).

Modelling conventions:

* JavaScript numbers are modelled as exact rationals (`ℚ`); the arithmetic
  performed by the service (addition, multiplication, division, `Math.round`,
  `Math.floor`, `Math.min`, `Math.max`) is exact on the inputs considered.
  The special values produced by division by zero (`Infinity`, `-Infinity`,
  `NaN`) are modelled explicitly by `JsNum`.  The two genuinely
  transcendental computations (`Math.pow(x, 2.4)` inside the WCAG relative
  luminance) are modelled over the reals with `Real.rpow`.
* JavaScript strings are modelled as `List Char` (one `Char` per UTF-16
  code unit of the source string).
* Image decoding (`sharp(..).metadata()`) and raster compositing are host
  library effects: a decoded image is modelled by its metadata and by the
  list of sampled pixels that the 50×50 downsample in
  `extractDominantColors` produces; a malformed buffer is the only error
  source of the service code itself.
-/

set_option autoImplicit false
set_option linter.unusedVariables false

namespace Overlay

/-- `Math.round` of JavaScript: round half toward positive infinity. -/
def jsRound (q : ℚ) : ℤ := ⌊q + 1/2⌋

/-- A JavaScript number together with the special values that division by
zero can produce (`Infinity`, `-Infinity`, `NaN`). -/
inductive JsNum where
  | val (q : ℚ)
  | posInf
  | negInf
  | nan
deriving DecidableEq

/-- JavaScript division, returning `Infinity`/`-Infinity`/`NaN` when the
divisor is zero. -/
def jsDiv (a b : ℚ) : JsNum :=
  if b = 0 then
    if a = 0 then .nan else if 0 < a then .posInf else .negInf
  else .val (a / b)

/-- `Math.floor` extended to the special values (it fixes each of them). -/
def jsFloorNum : JsNum → JsNum
  | .val q => .val ⌊q⌋
  | .posInf => .posInf
  | .negInf => .negInf
  | .nan => .nan

/-- The JavaScript comparison `a <= m` for an ordinary number `a` and a
possibly-special number `m`; any comparison with `NaN` is `false`. -/
def jsLeNum (a : ℚ) (m : JsNum) : Bool :=
  match m with
  | .val q => decide (a ≤ q)
  | .posInf => true
  | .negInf => false
  | .nan => false

/-- The JavaScript `||` default on an optional integer (used for
`metadata.width || 1080`): an absent or zero (falsy) value is replaced by
the default. -/
def jsOrInt (o : Option ℤ) (d : ℤ) : ℤ :=
  match o with
  | none => d
  | some v => if v = 0 then d else v

/-- The JavaScript `||` default on an optional number (used for
`options.imageScale || 1` and `options.imageOffsetX || 0`): an absent or
zero (falsy) value is replaced by the default. -/
def jsOrNum (o : Option ℚ) (d : ℚ) : ℚ :=
  match o with
  | none => d
  | some v => if v = 0 then d else v

/-! ## Geometry/Transform Resolver

Embedding of `applyImageTransformAndCrop` (overlay-service.ts, lines
327–396).  The function decodes the image to obtain `imgWidth`/`imgHeight`
and then computes the crop rectangle handed to `sharp(...).extract`; the
pure rectangle computation is embedded here, split into the same steps the
source performs.  `sharp` metadata dimensions are integers, the remaining
parameters are JavaScript numbers. -/

structure CropRectangle where
  left : ℤ
  top : ℤ
  width : ℤ
  height : ℤ
deriving DecidableEq

/-- Base crop width before zoom (lines 354–364): if the source is wider
than the target ratio, crop the width to `round(imgHeight * targetRatio)`,
otherwise keep the full width. -/
def baseCropWidth (imgWidth imgHeight : ℤ) (targetWidth targetHeight : ℚ) : ℤ :=
  if targetWidth / targetHeight < (imgWidth : ℚ) / (imgHeight : ℚ) then
    jsRound ((imgHeight : ℚ) * (targetWidth / targetHeight))
  else imgWidth

/-- Base crop height before zoom (lines 354–364): if the source is wider
than the target ratio, keep the full height, otherwise crop the height to
`round(imgWidth / targetRatio)`. -/
def baseCropHeight (imgWidth imgHeight : ℤ) (targetWidth targetHeight : ℚ) : ℤ :=
  if targetWidth / targetHeight < (imgWidth : ℚ) / (imgHeight : ℚ) then
    imgHeight
  else jsRound ((imgWidth : ℚ) / (targetWidth / targetHeight))

/-- Crop width after applying the user's zoom and the source-dimension
clamp (lines 366–373): `min(round(base / max(1, scale)), imgWidth)`. -/
def cropWidthAfterScale (imgWidth imgHeight : ℤ) (targetWidth targetHeight scale : ℚ) : ℤ :=
  min (jsRound ((baseCropWidth imgWidth imgHeight targetWidth targetHeight : ℚ) / max 1 scale))
    imgWidth

/-- Crop height after applying the user's zoom and the source-dimension
clamp (lines 366–373). -/
def cropHeightAfterScale (imgWidth imgHeight : ℤ) (targetWidth targetHeight scale : ℚ) : ℤ :=
  min (jsRound ((baseCropHeight imgWidth imgHeight targetWidth targetHeight : ℚ) / max 1 scale))
    imgHeight

/-- The crop rectangle computed by `applyImageTransformAndCrop` (lines
333–390): base crop at the target aspect ratio, zoom division, clamp to the
source dimensions, centred origin shifted by the pan offsets (a percentage
of the available overflow) and finally clamped into the image. -/
def resolveCrop (imgWidth imgHeight : ℤ) (targetWidth targetHeight scale offsetX offsetY : ℚ) :
    CropRectangle :=
  let cropWidth := cropWidthAfterScale imgWidth imgHeight targetWidth targetHeight scale
  let cropHeight := cropHeightAfterScale imgWidth imgHeight targetWidth targetHeight scale
  let overflowX : ℤ := max 0 (imgWidth - cropWidth)
  let overflowY : ℤ := max 0 (imgHeight - cropHeight)
  let left0 := jsRound (((imgWidth - cropWidth : ℤ) : ℚ) / 2 + (offsetX / 100) * (overflowX : ℚ))
  let top0 := jsRound (((imgHeight - cropHeight : ℤ) : ℚ) / 2 + (offsetY / 100) * (overflowY : ℚ))
  { left := max 0 (min (imgWidth - cropWidth) left0)
    top := max 0 (min (imgHeight - cropHeight) top0)
    width := cropWidth
    height := cropHeight }

/-! ## Text wrapping and XML escaping

Embedding of `wrapText` (overlay-service.ts, lines 48–64) and `escapeXml`
(lines 69–76).  A JavaScript string is a `List Char`; `text.split(' ')`
splits at every single space, keeping empty fragments. -/

/-- `text.split(' ')` of JavaScript: split at each space character,
keeping empty fragments (so `"".split(' ') = [""]`). -/
def splitSpace (text : List Char) : List (List Char) := text.splitOn ' '

/-- `seg` occurs contiguously inside `l`. -/
def infixOf {α : Type} (seg l : List α) : Prop := ∃ p s, l = p ++ seg ++ s

/-- The word loop of `wrapText` (lines 53–60) followed by the final flush
(line 61): accumulate words into `currentLine` while
`currentLine.length + word.length + 1 <= maxCharsPerLine`, else flush the
(truthy) current line and start a new one from the word. -/
def wrapLoop (maxCharsPerLine : JsNum) :
    List (List Char) → List (List Char) → List Char → List (List Char)
  | [], lines, currentLine => if currentLine = [] then lines else lines ++ [currentLine]
  | word :: words, lines, currentLine =>
    if jsLeNum ((currentLine.length : ℚ) + (word.length : ℚ) + 1) maxCharsPerLine then
      wrapLoop maxCharsPerLine words lines
        (if currentLine = [] then word else currentLine ++ ' ' :: word)
    else
      wrapLoop maxCharsPerLine words
        (if currentLine = [] then lines else lines ++ [currentLine]) word

/-- `wrapText` (lines 48–64): split the text at spaces and run the greedy
word loop with an initially empty line list and current line. -/
def wrapText (text : List Char) (maxCharsPerLine : JsNum) : List (List Char) :=
  wrapLoop maxCharsPerLine (splitSpace text) [] []

/-- `text.replace(/c/g, rep)` for a single-character pattern: replace every
occurrence of `target` by `rep`. -/
def replaceAll (target : Char) (rep : List Char) : List Char → List Char
  | [] => []
  | c :: cs =>
    if c = target then rep ++ replaceAll target rep cs
    else c :: replaceAll target rep cs

/-- The double-quote character (`"`, code 34). -/
def quotChar : Char := Char.ofNat 34

/-- The apostrophe character (code 39). -/
def aposChar : Char := Char.ofNat 39

/-- `escapeXml` (lines 69–76): the five global replacements applied in the
source order, ampersand first. -/
def escapeXml (text : List Char) : List Char :=
  replaceAll aposChar ['&', 'a', 'p', 'o', 's', ';']
    (replaceAll quotChar ['&', 'q', 'u', 'o', 't', ';']
      (replaceAll '>' ['&', 'g', 't', ';']
        (replaceAll '<' ['&', 'l', 't', ';']
          (replaceAll '&' ['&', 'a', 'm', 'p', ';'] text))))

/-- The per-character action of `escapeXml`: each XML-sensitive character
becomes its entity, every other character is kept. -/
def escapeChar (c : Char) : List Char :=
  if c = '&' then ['&', 'a', 'm', 'p', ';']
  else if c = '<' then ['&', 'l', 't', ';']
  else if c = '>' then ['&', 'g', 't', ';']
  else if c = quotChar then ['&', 'q', 'u', 'o', 't', ';']
  else if c = aposChar then ['&', 'a', 'p', 'o', 's', ';']
  else [c]

/-- The five entity tails that may legally follow an ampersand in escaped
output. -/
def entityTails : List (List Char) :=
  [['a', 'm', 'p', ';'], ['l', 't', ';'], ['g', 't', ';'],
   ['q', 'u', 'o', 't', ';'], ['a', 'p', 'o', 's', ';']]

/-- `startsEntity rest` holds when `rest` begins with one of the five
entity tails. -/
def startsEntity (rest : List Char) : Bool :=
  entityTails.any fun t => t.isPrefixOf rest

/-- A character list is XML-safe when it contains no raw `<`, `>`, `"` or
apostrophe, and every ampersand starts one of the five escaped entities. -/
def xmlSafe : List Char → Bool
  | [] => true
  | c :: rest =>
    if c = '<' || c = '>' || c = quotChar || c = aposChar then false
    else if c = '&' then startsEntity rest && xmlSafe rest
    else xmlSafe rest

/-! ## Color Analyzer

Embedding of `color-service.ts`.  `extractDominantColors` receives the raw
pixel data of the 50×50 `cover` downsample that `sharp` produces; the
embedding takes that sampled pixel list (one `(r, g, b)` triple of byte
values per sampled pixel) as its input.  The `luminance` field that the
source stores in each `ColorInfo` is computed by `getRelativeLuminance`
but read by no consumer of the accent-color pipeline, so the record here
carries only the fields the pipeline reads (`hex`, `rgb`, `saturation`);
`getRelativeLuminance` itself is embedded separately for the contrast
computations. -/

structure RGB where
  r : ℚ
  g : ℚ
  b : ℚ
deriving DecidableEq

/-- `rgbToHex` helper: `Math.round(x).toString(16)` of JavaScript. -/
def intToHexChars (n : ℤ) : List Char :=
  if n < 0 then '-' :: Nat.toDigits 16 n.natAbs else Nat.toDigits 16 n.toNat

/-- One two-digit (zero-padded) hex byte of `rgbToHex` (color-service.ts,
lines 24–29). -/
def hexByte (x : ℚ) : List Char :=
  let hex := intToHexChars (jsRound x)
  if hex.length = 1 then '0' :: hex else hex

/-- `rgbToHex` (lines 24–29). -/
def rgbToHex (r g b : ℚ) : List Char :=
  '#' :: (hexByte r ++ hexByte g ++ hexByte b)

/-- `getSaturation` (lines 58–63): `(max - min) / max`, `0` for black. -/
def getSaturation (rgb : RGB) : ℚ :=
  let mx := max rgb.r (max rgb.g rgb.b)
  let mn := min rgb.r (min rgb.g rgb.b)
  if mx = 0 then 0 else (mx - mn) / mx

/-- The quantisation `Math.round(c / 32) * 32` of the histogram key
(lines 87–89). -/
def quantize (c : ℕ) : ℤ := jsRound ((c : ℚ) / 32) * 32

/-- One bucket of the color histogram: quantised key, pixel count and the
running average of the actual colors (lines 79–103).  The `Map` of the
source preserves insertion order, modelled by an association list to which
new keys are appended. -/
structure Bucket where
  key : ℤ × ℤ × ℤ
  count : ℕ
  rgb : RGB
deriving DecidableEq

/-- One iteration of the histogram loop (lines 81–103): bump the count and
the running average of an existing bucket, or append a fresh bucket. -/
def addPixel (colorMap : List Bucket) (p : ℕ × ℕ × ℕ) : List Bucket :=
  let key := (quantize p.1, quantize p.2.1, quantize p.2.2)
  if colorMap.any fun b => b.key = key then
    colorMap.map fun b =>
      if b.key = key then
        let count := b.count + 1
        { b with
          count := count
          rgb := ⟨(b.rgb.r * ((count : ℚ) - 1) + (p.1 : ℚ)) / (count : ℚ),
                  (b.rgb.g * ((count : ℚ) - 1) + (p.2.1 : ℚ)) / (count : ℚ),
                  (b.rgb.b * ((count : ℚ) - 1) + (p.2.2 : ℚ)) / (count : ℚ)⟩ }
      else b
  else colorMap ++ [{ key := key, count := 1, rgb := ⟨(p.1 : ℚ), (p.2.1 : ℚ), (p.2.2 : ℚ)⟩ }]

/-- The fields of `ColorInfo` read by the accent-color pipeline. -/
structure ColorInfo where
  hex : List Char
  rgb : RGB
  saturation : ℚ
deriving DecidableEq

/-- `extractDominantColors` (lines 68–119) on the sampled pixels: build the
histogram, sort the buckets by count descending (JavaScript `sort` is
stable), keep `numColors * 2` buckets, convert to `ColorInfo` and return
the first `numColors`. -/
def extractDominantColors (pixels : List (ℕ × ℕ × ℕ)) (numColors : ℕ) : List ColorInfo :=
  let colorMap := pixels.foldl addPixel []
  let sortedColors :=
    (colorMap.mergeSort fun a b => b.count ≤ a.count).take (numColors * 2)
  (sortedColors.map fun bucket =>
    { hex := rgbToHex bucket.rgb.r bucket.rgb.g bucket.rgb.b
      rgb := bucket.rgb
      saturation := getSaturation bucket.rgb }).take numColors

/-- The candidate filter of `extractAccentColor` (lines 131–137). -/
def isCandidateColor (c : ColorInfo) : Bool :=
  let isNearBlack := decide (c.rgb.r < 30) && decide (c.rgb.g < 30) && decide (c.rgb.b < 30)
  let isNearWhite := decide (225 < c.rgb.r) && decide (225 < c.rgb.g) && decide (225 < c.rgb.b)
  let isGray := decide (|c.rgb.r - c.rgb.g| < 20) && decide (|c.rgb.g - c.rgb.b| < 20) &&
    decide (|c.rgb.r - c.rgb.b| < 20)
  !isNearBlack && !isNearWhite && !isGray && decide (1/5 < c.saturation)

/-- `extractAccentColor` (lines 125–147): filter the ten dominant colors,
return `null` when nothing survives, otherwise the hex of the
highest-saturation survivor (stable sort, first element). -/
def extractAccentColor (pixels : List (ℕ × ℕ × ℕ)) : Option (List Char) :=
  let colors := extractDominantColors pixels 10
  let candidateColors := colors.filter isCandidateColor
  if candidateColors = [] then none
  else
    match candidateColors.mergeSort fun a b => b.saturation ≤ a.saturation with
    | [] => none
    | c :: _ => some c.hex

/-- One sRGB channel of the WCAG relative luminance (lines 35–41); the
`Math.pow(·, 2.4)` branch is transcendental and is modelled with
`Real.rpow`. -/
noncomputable def srgbChannel (c : ℚ) : ℝ :=
  let x : ℝ := (c : ℝ) / 255
  if x ≤ 0.03928 then x / 12.92 else ((x + 0.055) / 1.055) ^ (2.4 : ℝ)

/-- `getRelativeLuminance` (lines 35–41). -/
noncomputable def getRelativeLuminance (rgb : RGB) : ℝ :=
  0.2126 * srgbChannel rgb.r + 0.7152 * srgbChannel rgb.g + 0.0722 * srgbChannel rgb.b

/-- `getContrastRatio` (lines 47–53): `(lighter + 0.05) / (darker + 0.05)`. -/
noncomputable def getContrastRatio (color1 color2 : RGB) : ℝ :=
  let l1 := getRelativeLuminance color1
  let l2 := getRelativeLuminance color2
  (max l1 l2 + 0.05) / (min l1 l2 + 0.05)

/-- The three text color choices of the overlay service. -/
inductive TextColorOption where
  | black
  | white
  | accent
deriving DecidableEq

/-- `getBestTextColor` (lines 153–182).  The source receives the optional
accent as a hex string and parses its three hex byte pairs into an
`{r, g, b}` record before any comparison; the embedding takes that parsed
record as the argument.  An absent accent leaves `accentContrast = 0`. -/
noncomputable def getBestTextColor (backgroundColor : RGB) (accentColor : Option RGB) :
    TextColorOption :=
  let whiteContrast := getContrastRatio backgroundColor ⟨255, 255, 255⟩
  let blackContrast := getContrastRatio backgroundColor ⟨0, 0, 0⟩
  let accentContrast : ℝ :=
    match accentColor with
    | none => 0
    | some a => getContrastRatio backgroundColor a
  if 4.5 ≤ accentContrast ∧ whiteContrast ≤ accentContrast ∧ blackContrast ≤ accentContrast then
    .accent
  else if blackContrast ≤ whiteContrast then .white
  else .black

/-! ## Text Layout Engine and Compositor

Embedding of `createTextSvg` (overlay-service.ts, lines 103–170),
`overlayCaption` (lines 175–216) and `batchOverlayCaptions` (lines
255–273).  The SVG document built by `createTextSvg` is represented
structurally: its root dimensions and the list of `<text>` elements, each
with its coordinates, anchor, font size, fill and (escaped) character
content — the only caption-derived data interpolated into the markup. -/

inductive TextAlignment where
  | left
  | center
  | right
deriving DecidableEq

/-- The resolved `OverlayOptions` record (lines 14–28); the transform
fields are optional also after merging with the defaults. -/
structure OverlayOptions where
  x : ℚ
  y : ℚ
  fontSize : ℚ
  width : ℚ
  textAlign : TextAlignment
  textColor : TextColorOption
  accentColor : Option (List Char)
  imageScale : Option ℚ
  imageOffsetX : Option ℚ
  imageOffsetY : Option ℚ
deriving DecidableEq

/-- A `Partial<OverlayOptions>` value: every field may be absent. -/
structure PartialOverlayOptions where
  x : Option ℚ
  y : Option ℚ
  fontSize : Option ℚ
  width : Option ℚ
  textAlign : Option TextAlignment
  textColor : Option TextColorOption
  accentColor : Option (List Char)
  imageScale : Option ℚ
  imageOffsetX : Option ℚ
  imageOffsetY : Option ℚ
deriving DecidableEq

/-- The `Partial<OverlayOptions>` with no field present. -/
def noOptions : PartialOverlayOptions :=
  ⟨none, none, none, none, none, none, none, none, none, none⟩

/-- `DEFAULT_OPTIONS` (lines 36–43). -/
def DEFAULT_OPTIONS : OverlayOptions :=
  { x := 50
    y := 80
    fontSize := 34
    width := 80
    textAlign := .center
    textColor := .white
    accentColor := none
    imageScale := none
    imageOffsetX := none
    imageOffsetY := none }

/-- The object spread `{ ...defaults, ...options }` of line 180: a field
present in `options` overrides the default. -/
def mergeDefaults (defaults : OverlayOptions) (options : PartialOverlayOptions) :
    OverlayOptions :=
  { x := options.x.getD defaults.x
    y := options.y.getD defaults.y
    fontSize := options.fontSize.getD defaults.fontSize
    width := options.width.getD defaults.width
    textAlign := options.textAlign.getD defaults.textAlign
    textColor := options.textColor.getD defaults.textColor
    accentColor := options.accentColor.or defaults.accentColor
    imageScale := options.imageScale.or defaults.imageScale
    imageOffsetX := options.imageOffsetX.or defaults.imageOffsetX
    imageOffsetY := options.imageOffsetY.or defaults.imageOffsetY }

/-- The object spread `{ ...defaultOptions, ...item.options }` of line 263,
merging two partial records. -/
def mergePartial (defaults options : PartialOverlayOptions) : PartialOverlayOptions :=
  { x := options.x.or defaults.x
    y := options.y.or defaults.y
    fontSize := options.fontSize.or defaults.fontSize
    width := options.width.or defaults.width
    textAlign := options.textAlign.or defaults.textAlign
    textColor := options.textColor.or defaults.textColor
    accentColor := options.accentColor.or defaults.accentColor
    imageScale := options.imageScale.or defaults.imageScale
    imageOffsetX := options.imageOffsetX.or defaults.imageOffsetX
    imageOffsetY := options.imageOffsetY.or defaults.imageOffsetY }

/-- The JavaScript `||` default on an optional string (`accentColor ||
'#FFFFFF'`): an absent or empty (falsy) string is replaced by the
default. -/
def jsOrStr (o : Option (List Char)) (d : List Char) : List Char :=
  match o with
  | none => d
  | some s => if s = [] then d else s

/-- `getColorHex` (lines 81–95): resolve the text color choice to a hex
string, falling back to white when the accent is absent (or empty, the
`accentColor || '#FFFFFF'` falsy check). -/
def getColorHex (textColor : TextColorOption) (accentColor : Option (List Char)) : List Char :=
  match textColor with
  | .black => '#' :: ['0', '0', '0', '0', '0', '0']
  | .white => '#' :: ['F', 'F', 'F', 'F', 'F', 'F']
  | .accent => jsOrStr accentColor ('#' :: ['F', 'F', 'F', 'F', 'F', 'F'])

/-- One `<text>` element of the generated SVG (line 157): position,
anchor, font size, fill color and the escaped line embedded as its
content. -/
structure TextElem where
  x : ℚ
  y : ℚ
  anchor : List Char
  fontSize : ℚ
  fill : List Char
  content : List Char
deriving DecidableEq

/-- The SVG document of `createTextSvg` (lines 160–167): root `width` and
`height` equal to the image dimensions, plus the `<text>` elements (the
`<defs>` drop-shadow filter carries no caption data and is omitted). -/
structure SvgDoc where
  width : ℤ
  height : ℤ
  textElems : List TextElem
deriving DecidableEq

/-- The `text-anchor` attribute chosen from the alignment (lines 128–142). -/
def anchorOf (textAlign : TextAlignment) : List Char :=
  match textAlign with
  | .left => ['s', 't', 'a', 'r', 't']
  | .right => ['e', 'n', 'd']
  | .center => ['m', 'i', 'd', 'd', 'l', 'e']

/-- `createTextSvg` (lines 103–170): wrap the caption to the
`charsPerLine` heuristic (`Math.floor(textBoxWidth / (fontSize * 0.55))`,
an `Infinity`/`NaN`-aware JavaScript division), position the text block
and emit one `<text>` element per wrapped line with its escaped content. -/
def createTextSvg (text : List Char) (imageWidth imageHeight : ℤ)
    (options : OverlayOptions) (resolvedColor : List Char) : SvgDoc :=
  let fontSize := options.fontSize
  let textBoxWidth : ℚ := (imageWidth : ℚ) * (options.width / 100)
  let charsPerLine := jsFloorNum (jsDiv textBoxWidth (fontSize * (11/20)))
  let lines := wrapText text charsPerLine
  let lineHeight : ℚ := fontSize * (13/10)
  let textBlockHeight : ℚ := (lines.length : ℚ) * lineHeight
  let boxCenterX : ℚ := (options.x / 100) * (imageWidth : ℚ)
  let boxLeft : ℚ := boxCenterX - textBoxWidth / 2
  let boxRight : ℚ := boxCenterX + textBoxWidth / 2
  let textX : ℚ :=
    match options.textAlign with
    | .left => boxLeft
    | .right => boxRight
    | .center => boxCenterX
  let textY : ℚ := (options.y / 100) * (imageHeight : ℚ) - textBlockHeight / 2 + fontSize
  { width := imageWidth
    height := imageHeight
    textElems :=
      (lines.enum.map fun li =>
        { x := textX
          y := textY + (li.1 : ℚ) * lineHeight
          anchor := anchorOf options.textAlign
          fontSize := fontSize
          fill := resolvedColor
          content := escapeXml li.2 }) }

/-- A successfully decoded image: the `sharp` metadata dimensions and the
pixels that the color analyzer's 50×50 downsample would sample from it. -/
structure SharpImage where
  metaWidth : Option ℤ
  metaHeight : Option ℤ
  sampledPixels : List (ℕ × ℕ × ℕ)

/-- The input buffer of `overlayCaption`: either a decodable image or a
malformed buffer, on which `sharp(imageBuffer).metadata()` rejects. -/
inductive ImageInput where
  | valid (img : SharpImage)
  | malformed

/-- The composite produced by `overlayCaption` (lines 204–215): the decoded
image re-encoded as JPEG quality 90 with the SVG overlay at origin. -/
structure Composited where
  width : ℤ
  height : ℤ
  overlay : SvgDoc
  quality : ℕ

/-- `overlayCaption` (lines 175–216): merge the options over
`DEFAULT_OPTIONS`, read the metadata (`|| 1080` fallbacks), scale the font
size by `min(width, height) / 1080`, lazily resolve the accent color when
`textColor == 'accent'` and none was supplied (`|| '#FFFFFF'` fallback),
resolve the color hex, build the SVG and composite it.  The service code
itself raises only the decode error of a malformed buffer. -/
def overlayCaption (imageBuffer : ImageInput) (caption : List Char)
    (options : PartialOverlayOptions) : Except (List Char) Composited :=
  match imageBuffer with
  | .malformed =>
    .error ['u', 'n', 's', 'u', 'p', 'p', 'o', 'r', 't', 'e', 'd', ' ',
            'i', 'm', 'a', 'g', 'e', ' ', 'f', 'o', 'r', 'm', 'a', 't']
  | .valid img =>
    let opts := mergeDefaults DEFAULT_OPTIONS options
    let width := jsOrInt img.metaWidth 1080
    let height := jsOrInt img.metaHeight 1080
    let scaleFactor : ℚ := ((min width height : ℤ) : ℚ) / 1080
    let scaledFontSize : ℤ := jsRound (opts.fontSize * scaleFactor)
    let accentColor : Option (List Char) :=
      if opts.textColor = .accent ∧ opts.accentColor = none then
        some (jsOrStr (extractAccentColor img.sampledPixels)
          ('#' :: ['F', 'F', 'F', 'F', 'F', 'F']))
      else opts.accentColor
    let resolvedColor := getColorHex opts.textColor accentColor
    let textSvg := createTextSvg caption width height
      { opts with fontSize := (scaledFontSize : ℚ), accentColor := accentColor } resolvedColor
    .ok { width := width, height := height, overlay := textSvg, quality := 90 }

/-- One batch work item of `batchOverlayCaptions` (line 256). -/
structure BatchItem where
  imageUrl : List Char
  caption : List Char
  options : Option PartialOverlayOptions

/-- `batchOverlayCaptions` (lines 255–273), parametrised by the effect of
`overlayCaptionFromUrl` on a single item (fetching the URL and compositing
are host effects): process the items sequentially in order, merge each
item's options over the shared defaults, collect the results, and rethrow
the first failure (the loop catches only to log before rethrowing). -/
def batchOverlayCaptions {ε β : Type}
    (overlayFromUrl : List Char → List Char → PartialOverlayOptions → Except ε β)
    (items : List BatchItem) (defaultOptions : PartialOverlayOptions) : Except ε (List β) :=
  match items with
  | [] => .ok []
  | item :: rest =>
    match overlayFromUrl item.imageUrl item.caption
        (mergePartial defaultOptions (item.options.getD noOptions)) with
    | .error e => .error e
    | .ok processed =>
      match batchOverlayCaptions overlayFromUrl rest defaultOptions with
      | .error e => .error e
      | .ok results => .ok (processed :: results)

/-! ## Basic facts about the JavaScript helpers -/

theorem jsRound_intCast (n : ℤ) : jsRound (n : ℚ) = n := by
  unfold jsRound
  rw [Int.floor_eq_iff]
  constructor
  · linarith
  · have h : ((n + 1 : ℤ) : ℚ) = (n : ℚ) + 1 := by push_cast; ring
    linarith [h.ge]

theorem jsRound_nonneg {q : ℚ} (h : 0 ≤ q) : 0 ≤ jsRound q := by
  unfold jsRound
  positivity

theorem jsRound_mono {q r : ℚ} (h : q ≤ r) : jsRound q ≤ jsRound r :=
  Int.floor_le_floor (by linarith)

theorem jsRound_le (q : ℚ) : (jsRound q : ℚ) ≤ q + 1/2 :=
  Int.floor_le _

theorem lt_jsRound (q : ℚ) : q - 1/2 < jsRound q := by
  have h1 := Int.lt_floor_add_one (q + 1/2)
  have h2 : (jsRound q : ℚ) = (⌊q + 1/2⌋ : ℚ) := rfl
  rw [h2]
  linarith

theorem abs_jsRound_sub (q : ℚ) : |(jsRound q : ℚ) - q| ≤ 1/2 := by
  rw [abs_le]
  constructor
  · have := lt_jsRound q
    linarith
  · have := jsRound_le q
    linarith

/-! ## Facts about the crop resolver -/

theorem resolveCrop_width (imgWidth imgHeight : ℤ) (tW tH scale offX offY : ℚ) :
    (resolveCrop imgWidth imgHeight tW tH scale offX offY).width =
      cropWidthAfterScale imgWidth imgHeight tW tH scale := rfl

theorem resolveCrop_height (imgWidth imgHeight : ℤ) (tW tH scale offX offY : ℚ) :
    (resolveCrop imgWidth imgHeight tW tH scale offX offY).height =
      cropHeightAfterScale imgWidth imgHeight tW tH scale := rfl

theorem resolveCrop_left (imgWidth imgHeight : ℤ) (tW tH scale offX offY : ℚ) :
    (resolveCrop imgWidth imgHeight tW tH scale offX offY).left =
      max 0 (min (imgWidth - cropWidthAfterScale imgWidth imgHeight tW tH scale)
        (jsRound (((imgWidth - cropWidthAfterScale imgWidth imgHeight tW tH scale : ℤ) : ℚ) / 2 +
          (offX / 100) *
            ((max 0 (imgWidth - cropWidthAfterScale imgWidth imgHeight tW tH scale) : ℤ) : ℚ)))) :=
  rfl

theorem resolveCrop_top (imgWidth imgHeight : ℤ) (tW tH scale offX offY : ℚ) :
    (resolveCrop imgWidth imgHeight tW tH scale offX offY).top =
      max 0 (min (imgHeight - cropHeightAfterScale imgWidth imgHeight tW tH scale)
        (jsRound (((imgHeight - cropHeightAfterScale imgWidth imgHeight tW tH scale : ℤ) : ℚ) / 2 +
          (offY / 100) *
            ((max 0 (imgHeight - cropHeightAfterScale imgWidth imgHeight tW tH scale) : ℤ) : ℚ)))) :=
  rfl

theorem cropWidthAfterScale_le (imgWidth imgHeight : ℤ) (tW tH scale : ℚ) :
    cropWidthAfterScale imgWidth imgHeight tW tH scale ≤ imgWidth :=
  min_le_right _ _

theorem cropHeightAfterScale_le (imgWidth imgHeight : ℤ) (tW tH scale : ℚ) :
    cropHeightAfterScale imgWidth imgHeight tW tH scale ≤ imgHeight :=
  min_le_right _ _

/-- C1.  Crop containment: with positive source dimensions, positive target
aspect, scale at least 1 and offsets in `[-50, 50]`, the rectangle computed
by the transform resolver stays inside the source image. -/
theorem crop_containment (imgWidth imgHeight : ℤ)
    (targetWidth targetHeight scale offsetX offsetY : ℚ)
    (hW : 0 < imgWidth) (hH : 0 < imgHeight)
    (htW : 0 < targetWidth) (htH : 0 < targetHeight) (hscale : 1 ≤ scale)
    (hoX : -50 ≤ offsetX ∧ offsetX ≤ 50) (hoY : -50 ≤ offsetY ∧ offsetY ≤ 50) :
    0 ≤ (resolveCrop imgWidth imgHeight targetWidth targetHeight scale offsetX offsetY).left ∧
      0 ≤ (resolveCrop imgWidth imgHeight targetWidth targetHeight scale offsetX offsetY).top ∧
      (resolveCrop imgWidth imgHeight targetWidth targetHeight scale offsetX offsetY).left +
        (resolveCrop imgWidth imgHeight targetWidth targetHeight scale offsetX offsetY).width ≤
        imgWidth ∧
      (resolveCrop imgWidth imgHeight targetWidth targetHeight scale offsetX offsetY).top +
        (resolveCrop imgWidth imgHeight targetWidth targetHeight scale offsetX offsetY).height ≤
        imgHeight := by
  have hw := cropWidthAfterScale_le imgWidth imgHeight targetWidth targetHeight scale
  have hh := cropHeightAfterScale_le imgWidth imgHeight targetWidth targetHeight scale
  refine ⟨?_, ?_, ?_, ?_⟩
  · rw [resolveCrop_left]
    exact le_max_left _ _
  · rw [resolveCrop_top]
    exact le_max_left _ _
  · rw [resolveCrop_left, resolveCrop_width]
    have h1 : max 0 (min (imgWidth - cropWidthAfterScale imgWidth imgHeight targetWidth
        targetHeight scale)
        (jsRound (((imgWidth - cropWidthAfterScale imgWidth imgHeight targetWidth targetHeight
          scale : ℤ) : ℚ) / 2 +
          (offsetX / 100) * ((max 0 (imgWidth - cropWidthAfterScale imgWidth imgHeight
            targetWidth targetHeight scale) : ℤ) : ℚ)))) ≤
        imgWidth - cropWidthAfterScale imgWidth imgHeight targetWidth targetHeight scale :=
      max_le (by omega) (min_le_left _ _)
    omega
  · rw [resolveCrop_top, resolveCrop_height]
    have h1 : max 0 (min (imgHeight - cropHeightAfterScale imgWidth imgHeight targetWidth
        targetHeight scale)
        (jsRound (((imgHeight - cropHeightAfterScale imgWidth imgHeight targetWidth targetHeight
          scale : ℤ) : ℚ) / 2 +
          (offsetY / 100) * ((max 0 (imgHeight - cropHeightAfterScale imgWidth imgHeight
            targetWidth targetHeight scale) : ℤ) : ℚ)))) ≤
        imgHeight - cropHeightAfterScale imgWidth imgHeight targetWidth targetHeight scale :=
      max_le (by omega) (min_le_left _ _)
    omega

/-- Witness for C1 at a concrete input (source 2000×1000, target 4:5,
scale 3/2, offsets 25 and -10). -/
theorem crop_containment_witness :
    0 ≤ (resolveCrop 2000 1000 4 5 (3/2) 25 (-10)).left ∧
      0 ≤ (resolveCrop 2000 1000 4 5 (3/2) 25 (-10)).top ∧
      (resolveCrop 2000 1000 4 5 (3/2) 25 (-10)).left +
        (resolveCrop 2000 1000 4 5 (3/2) 25 (-10)).width ≤ 2000 ∧
      (resolveCrop 2000 1000 4 5 (3/2) 25 (-10)).top +
        (resolveCrop 2000 1000 4 5 (3/2) 25 (-10)).height ≤ 1000 :=
  crop_containment 2000 1000 4 5 (3/2) 25 (-10) (by norm_num) (by norm_num) (by norm_num)
    (by norm_num) (by norm_num) (by norm_num) (by norm_num)

theorem cropWidthAfterScale_one (imgWidth imgHeight : ℤ) (tW tH : ℚ) :
    cropWidthAfterScale imgWidth imgHeight tW tH 1 =
      min (baseCropWidth imgWidth imgHeight tW tH) imgWidth := by
  unfold cropWidthAfterScale
  norm_num [jsRound_intCast]

theorem cropHeightAfterScale_one (imgWidth imgHeight : ℤ) (tW tH : ℚ) :
    cropHeightAfterScale imgWidth imgHeight tW tH 1 =
      min (baseCropHeight imgWidth imgHeight tW tH) imgHeight := by
  unfold cropHeightAfterScale
  norm_num [jsRound_intCast]

/-- Clamping the rounded value of `q` at an integer bound above `q` moves
it away from `q` by at most one. -/
theorem abs_min_jsRound_sub (q : ℚ) (n : ℤ) (h : q ≤ (n : ℚ)) :
    |((min (jsRound q) n : ℤ) : ℚ) - q| ≤ 1 := by
  rcases le_or_lt (jsRound q) n with hc | hc
  · rw [min_eq_left hc]
    exact (abs_jsRound_sub q).trans (by norm_num)
  · rw [min_eq_right hc.le]
    have h1 := jsRound_le q
    have h2 : (n : ℚ) < (jsRound q : ℚ) := by exact_mod_cast hc
    rw [abs_le]
    constructor
    · linarith
    · linarith

/-- C2.  Aspect adherence: at scale 1 with zero offsets the crop dimensions
match the target aspect ratio up to one pixel in each dimension (the ideal
real-valued pair `(w', h')` with the exact ratio is within 1 of the
returned integers), and the end-to-end scenario — a 2000×1000 source with
target aspect 4:5 — resolves to height 1000, width 800, left 600, top 0. -/
theorem aspect_adherence (imgWidth imgHeight : ℤ) (tW tH : ℚ)
    (hW : 0 < imgWidth) (hH : 0 < imgHeight) (htW : 0 < tW) (htH : 0 < tH) :
    (∃ idealW idealH : ℚ, 0 < idealH ∧ idealW * tH = idealH * tW ∧
      |(((resolveCrop imgWidth imgHeight tW tH 1 0 0).width : ℤ) : ℚ) - idealW| ≤ 1 ∧
      |(((resolveCrop imgWidth imgHeight tW tH 1 0 0).height : ℤ) : ℚ) - idealH| ≤ 1) ∧
    resolveCrop 2000 1000 4 5 1 0 0 = ⟨600, 0, 800, 1000⟩ := by
  have hW' : (0 : ℚ) < (imgWidth : ℚ) := by exact_mod_cast hW
  have hH' : (0 : ℚ) < (imgHeight : ℚ) := by exact_mod_cast hH
  constructor
  · rw [resolveCrop_width, resolveCrop_height, cropWidthAfterScale_one, cropHeightAfterScale_one]
    by_cases hbr : tW / tH < (imgWidth : ℚ) / (imgHeight : ℚ)
    · refine ⟨(imgHeight : ℚ) * (tW / tH), (imgHeight : ℚ), hH', by field_simp, ?_, ?_⟩
      · simp only [baseCropWidth, if_pos hbr]
        apply abs_min_jsRound_sub
        have h1 : tW / tH * (imgHeight : ℚ) < (imgWidth : ℚ) / (imgHeight : ℚ) * (imgHeight : ℚ) :=
          mul_lt_mul_of_pos_right hbr hH'
        rw [div_mul_cancel₀ _ (ne_of_gt hH')] at h1
        linarith [mul_comm ((imgHeight : ℚ)) (tW / tH)]
      · simp only [baseCropHeight, if_pos hbr, min_self, sub_self, abs_zero]
        norm_num
    · refine ⟨(imgWidth : ℚ), (imgWidth : ℚ) / (tW / tH), by positivity, by field_simp, ?_, ?_⟩
      · simp only [baseCropWidth, if_neg hbr, min_self, sub_self, abs_zero]
        norm_num
      · simp only [baseCropHeight, if_neg hbr]
        apply abs_min_jsRound_sub
        push_neg at hbr
        have hρ : (0 : ℚ) < tW / tH := by positivity
        have h1 : (imgWidth : ℚ) / (imgHeight : ℚ) * (imgHeight : ℚ) ≤
            tW / tH * (imgHeight : ℚ) := mul_le_mul_of_nonneg_right hbr hH'.le
        rw [div_mul_cancel₀ _ (ne_of_gt hH')] at h1
        rw [div_le_iff₀ hρ]
        linarith [mul_comm ((imgHeight : ℚ)) (tW / tH)]
  · norm_num [resolveCrop, cropWidthAfterScale, cropHeightAfterScale, baseCropWidth,
      baseCropHeight, jsRound]

/-- Witness for C2 at the end-to-end input (source 2000×1000, target 4:5). -/
theorem aspect_adherence_witness :
    (∃ idealW idealH : ℚ, 0 < idealH ∧ idealW * 5 = idealH * 4 ∧
      |(((resolveCrop 2000 1000 4 5 1 0 0).width : ℤ) : ℚ) - idealW| ≤ 1 ∧
      |(((resolveCrop 2000 1000 4 5 1 0 0).height : ℤ) : ℚ) - idealH| ≤ 1) ∧
    resolveCrop 2000 1000 4 5 1 0 0 = ⟨600, 0, 800, 1000⟩ :=
  aspect_adherence 2000 1000 4 5 (by norm_num) (by norm_num) (by norm_num) (by norm_num)

theorem baseCropWidth_nonneg (imgWidth imgHeight : ℤ) (tW tH : ℚ)
    (hW : 0 ≤ imgWidth) (hH : 0 ≤ imgHeight) (htW : 0 < tW) (htH : 0 < tH) :
    0 ≤ baseCropWidth imgWidth imgHeight tW tH := by
  unfold baseCropWidth
  split
  · apply jsRound_nonneg
    have h1 : (0 : ℚ) ≤ (imgHeight : ℚ) := by exact_mod_cast hH
    positivity
  · exact hW

theorem baseCropHeight_nonneg (imgWidth imgHeight : ℤ) (tW tH : ℚ)
    (hW : 0 ≤ imgWidth) (hH : 0 ≤ imgHeight) (htW : 0 < tW) (htH : 0 < tH) :
    0 ≤ baseCropHeight imgWidth imgHeight tW tH := by
  unfold baseCropHeight
  split
  · exact hH
  · apply jsRound_nonneg
    have h1 : (0 : ℚ) ≤ (imgWidth : ℚ) := by exact_mod_cast hW
    positivity

/-- The zoomed, clamped crop dimension is antitone in the scale: dividing a
nonnegative base dimension by a larger `max 1 scale` can only shrink it. -/
theorem min_jsRound_div_anti (base bound : ℤ) (hbase : 0 ≤ base) {s t : ℚ} (hst : s ≤ t) :
    min (jsRound ((base : ℚ) / max 1 t)) bound ≤ min (jsRound ((base : ℚ) / max 1 s)) bound := by
  apply min_le_min _ le_rfl
  apply jsRound_mono
  have hbase' : (0 : ℚ) ≤ (base : ℚ) := by exact_mod_cast hbase
  have h1 : (0 : ℚ) < max 1 s := lt_max_of_lt_left one_pos
  gcongr

/-- C3.  Zoom monotonicity: with the other parameters fixed, a larger scale
yields a crop rectangle whose width and height are no larger. -/
theorem zoom_monotonicity (imgWidth imgHeight : ℤ) (tW tH offX offY : ℚ) (s₁ s₂ : ℚ)
    (hW : 0 < imgWidth) (hH : 0 < imgHeight) (htW : 0 < tW) (htH : 0 < tH)
    (hs : 1 ≤ s₁) (hss : s₁ ≤ s₂) :
    (resolveCrop imgWidth imgHeight tW tH s₂ offX offY).width ≤
      (resolveCrop imgWidth imgHeight tW tH s₁ offX offY).width ∧
    (resolveCrop imgWidth imgHeight tW tH s₂ offX offY).height ≤
      (resolveCrop imgWidth imgHeight tW tH s₁ offX offY).height := by
  rw [resolveCrop_width, resolveCrop_width, resolveCrop_height, resolveCrop_height]
  unfold cropWidthAfterScale cropHeightAfterScale
  constructor
  · exact min_jsRound_div_anti _ _
      (baseCropWidth_nonneg imgWidth imgHeight tW tH hW.le hH.le htW htH) hss
  · exact min_jsRound_div_anti _ _
      (baseCropHeight_nonneg imgWidth imgHeight tW tH hW.le hH.le htW htH) hss

/-- Witness for C3: scaling from 1 to 2 on the end-to-end input. -/
theorem zoom_monotonicity_witness :
    (resolveCrop 2000 1000 4 5 2 0 0).width ≤ (resolveCrop 2000 1000 4 5 1 0 0).width ∧
    (resolveCrop 2000 1000 4 5 2 0 0).height ≤ (resolveCrop 2000 1000 4 5 1 0 0).height :=
  zoom_monotonicity 2000 1000 4 5 0 0 1 2 (by norm_num) (by norm_num) (by norm_num)
    (by norm_num) (by norm_num) (by norm_num)

/-! ## Facts about word wrapping -/

theorem intercalate_space_single (w : List Char) : List.intercalate [' '] [w] = w := by
  simp [List.intercalate]

theorem intercalate_space_cons_cons (a b : List Char) (l : List (List Char)) :
    List.intercalate [' '] (a :: b :: l) = a ++ ' ' :: List.intercalate [' '] (b :: l) := by
  simp [List.intercalate, List.intersperse]

theorem intercalate_space_append {a b : List (List Char)} (ha : a ≠ []) (hb : b ≠ []) :
    List.intercalate [' '] (a ++ b) =
      List.intercalate [' '] a ++ ' ' :: List.intercalate [' '] b := by
  induction a with
  | nil => exact absurd rfl ha
  | cons x xs ih =>
    cases xs with
    | nil =>
      cases b with
      | nil => exact absurd rfl hb
      | cons y ys =>
        rw [show ([x] ++ y :: ys) = x :: y :: ys from rfl, intercalate_space_cons_cons,
          intercalate_space_single]
    | cons z zs =>
      rw [show ((x :: z :: zs) ++ b) = x :: z :: (zs ++ b) from rfl,
        intercalate_space_cons_cons, show (z :: (zs ++ b)) = (z :: zs) ++ b from rfl,
        ih (by simp), intercalate_space_cons_cons]
      simp

theorem intercalate_infixOf {seg ws : List (List Char)} (h : infixOf seg ws) :
    infixOf (List.intercalate [' '] seg) (List.intercalate [' '] ws) := by
  obtain ⟨p, s, rfl⟩ := h
  by_cases hseg : seg = []
  · exact ⟨[], List.intercalate [' '] (p ++ seg ++ s), by simp [hseg, List.intercalate]⟩
  by_cases hp : p = [] <;> by_cases hs : s = []
  · subst hp; subst hs
    exact ⟨[], [], by simp⟩
  · subst hp
    rw [show (([] : List (List Char)) ++ seg ++ s) = seg ++ s from by simp,
      intercalate_space_append hseg hs]
    exact ⟨[], ' ' :: List.intercalate [' '] s, by simp⟩
  · subst hs
    rw [show ((p ++ seg ++ ([] : List (List Char)))) = p ++ seg from by simp,
      intercalate_space_append hp hseg]
    exact ⟨List.intercalate [' '] p ++ [' '], [], by simp⟩
  · rw [show (p ++ seg ++ s) = p ++ (seg ++ s) from by simp,
      intercalate_space_append hp (by simp [hseg]), intercalate_space_append hseg hs]
    exact ⟨List.intercalate [' '] p ++ [' '], ' ' :: List.intercalate [' '] s, by simp⟩

theorem splitSpace_intercalate (text : List Char) :
    List.intercalate [' '] (splitSpace text) = text := by
  unfold splitSpace
  rw [List.intercalate_splitOn]

/-- The invariant of the greedy word loop: provided every already-flushed
line is a rejoined contiguous run of `allWords` and the current line is a
rejoined run immediately preceding the remaining words, every line of the
final output is a rejoined nonempty contiguous run of `allWords`. -/
theorem wrapLoop_lines_good (maxChars : JsNum) (allWords : List (List Char)) :
    ∀ (ws lines : List (List Char)) (cur : List Char),
      (∀ l ∈ lines, ∃ seg, seg ≠ [] ∧ infixOf seg allWords ∧
        l = List.intercalate [' '] seg) →
      (∃ p, allWords = p ++ ws) →
      (cur = [] ∨ ∃ seg, seg ≠ [] ∧ cur = List.intercalate [' '] seg ∧
        ∃ p, allWords = p ++ seg ++ ws) →
      ∀ l ∈ wrapLoop maxChars ws lines cur,
        ∃ seg, seg ≠ [] ∧ infixOf seg allWords ∧ l = List.intercalate [' '] seg := by
  intro ws
  induction ws with
  | nil =>
    intro lines cur hlines hws hcur l hl
    unfold wrapLoop at hl
    by_cases hc : cur = []
    · rw [if_pos hc] at hl
      exact hlines l hl
    · rw [if_neg hc] at hl
      rcases List.mem_append.mp hl with h | h
      · exact hlines l h
      · obtain rfl : l = cur := by simpa using h
        rcases hcur with rfl | ⟨seg, hseg, hcureq, p, hp⟩
        · exact absurd rfl hc
        · exact ⟨seg, hseg, ⟨p, [], by simpa using hp⟩, hcureq⟩
  | cons w ws ih =>
    intro lines cur hlines hws hcur l hl
    unfold wrapLoop at hl
    by_cases hfit : jsLeNum ((cur.length : ℚ) + (w.length : ℚ) + 1) maxChars = true
    · rw [if_pos hfit] at hl
      refine ih _ _ hlines ?_ ?_ l hl
      · obtain ⟨p, hp⟩ := hws
        exact ⟨p ++ [w], by simpa [List.append_assoc] using hp⟩
      · by_cases hc : cur = []
        · rw [if_pos hc]
          by_cases hw : w = []
          · exact Or.inl hw
          · refine Or.inr ⟨[w], by simp [hw], (intercalate_space_single w).symm, ?_⟩
            obtain ⟨p, hp⟩ := hws
            exact ⟨p, by simpa using hp⟩
        · rw [if_neg hc]
          rcases hcur with rfl | ⟨seg, hseg, rfl, p, hp⟩
          · exact absurd rfl hc
          · refine Or.inr ⟨seg ++ [w], by simp, ?_, p, by simpa [List.append_assoc] using hp⟩
            rw [intercalate_space_append hseg (by simp), intercalate_space_single]
    · rw [if_neg hfit] at hl
      refine ih _ _ ?_ ?_ ?_ l hl
      · intro l' hl'
        by_cases hc : cur = []
        · rw [if_pos hc] at hl'
          exact hlines l' hl'
        · rw [if_neg hc] at hl'
          rcases List.mem_append.mp hl' with h | h
          · exact hlines l' h
          · obtain rfl : l' = cur := by simpa using h
            rcases hcur with rfl | ⟨seg, hseg, hcureq, p, hp⟩
            · exact absurd rfl hc
            · exact ⟨seg, hseg, ⟨p, w :: ws, hp⟩, hcureq⟩
      · obtain ⟨p, hp⟩ := hws
        exact ⟨p ++ [w], by simpa [List.append_assoc] using hp⟩
      · by_cases hw : w = []
        · exact Or.inl hw
        · refine Or.inr ⟨[w], by simp [hw], (intercalate_space_single w).symm, ?_⟩
          obtain ⟨p, hp⟩ := hws
          exact ⟨p, by simpa using hp⟩

/-- C4.  The greedy word wrap never splits a word: every produced line is a
nonempty contiguous run of the space-split words of the input, rejoined
with single spaces — in particular a contiguous substring of the original
text. -/
theorem wrap_never_splits_words (text : List Char) (maxCharsPerLine : ℤ)
    (hmax : 1 ≤ maxCharsPerLine) (line : List Char)
    (hline : line ∈ wrapText text (.val (maxCharsPerLine : ℚ))) :
    ∃ seg : List (List Char), seg ≠ [] ∧ infixOf seg (splitSpace text) ∧
      line = List.intercalate [' '] seg ∧ infixOf line text := by
  have h := wrapLoop_lines_good (.val (maxCharsPerLine : ℚ)) (splitSpace text)
    (splitSpace text) [] [] (by simp) ⟨[], rfl⟩ (Or.inl rfl) line hline
  obtain ⟨seg, hseg, hinf, rfl⟩ := h
  refine ⟨seg, hseg, hinf, rfl, ?_⟩
  have h2 := intercalate_infixOf hinf
  rwa [splitSpace_intercalate] at h2

/-- Witness for C4: the single word `hey` with a line budget of 1 (the word
exceeds the budget and is still kept whole). -/
theorem wrap_never_splits_words_witness :
    ∃ seg : List (List Char), seg ≠ [] ∧ infixOf seg (splitSpace ['h', 'e', 'y']) ∧
      ['h', 'e', 'y'] = List.intercalate [' '] seg ∧
      infixOf ['h', 'e', 'y'] ['h', 'e', 'y'] :=
  wrap_never_splits_words ['h', 'e', 'y'] 1 (by norm_num) ['h', 'e', 'y'] (by
    have h : wrapText ['h', 'e', 'y'] (.val ((1 : ℤ) : ℚ)) = [['h', 'e', 'y']] := by
      norm_num [wrapText, wrapLoop, jsLeNum, splitSpace, List.splitOn, List.splitOnP,
        List.splitOnP.go]
      decide
    rw [h]
    exact List.mem_singleton_self _)

/-! ## Facts about XML escaping -/

theorem replaceAll_append (t : Char) (rep a b : List Char) :
    replaceAll t rep (a ++ b) = replaceAll t rep a ++ replaceAll t rep b := by
  induction a with
  | nil => rfl
  | cons c cs ih =>
    by_cases h : c = t <;> simp [replaceAll, h, ih]

theorem escapeXml_append (a b : List Char) :
    escapeXml (a ++ b) = escapeXml a ++ escapeXml b := by
  simp [escapeXml, replaceAll_append]

theorem escapeXml_cons (c : Char) (cs : List Char) :
    escapeXml (c :: cs) = escapeXml [c] ++ escapeXml cs := by
  rw [← escapeXml_append]
  rfl

theorem escapeXml_single (c : Char) : escapeXml [c] = escapeChar c := by
  by_cases h1 : c = '&'
  · subst h1; decide
  by_cases h2 : c = '<'
  · subst h2; decide
  by_cases h3 : c = '>'
  · subst h3; decide
  by_cases h4 : c = quotChar
  · subst h4; decide
  by_cases h5 : c = aposChar
  · subst h5; decide
  simp [escapeXml, replaceAll, escapeChar, h1, h2, h3, h4, h5]

theorem xmlSafe_cons_ordinary {c : Char} (rest : List Char)
    (h1 : c ≠ '&') (h2 : c ≠ '<') (h3 : c ≠ '>') (h4 : c ≠ quotChar) (h5 : c ≠ aposChar) :
    xmlSafe (c :: rest) = xmlSafe rest := by
  simp [xmlSafe, h1, h2, h3, h4, h5]

/-- The output of `escapeXml` is always XML-safe: the five sensitive
characters occur only inside the escaped entities. -/
theorem xmlSafe_escapeXml (s : List Char) : xmlSafe (escapeXml s) = true := by
  induction s with
  | nil => rfl
  | cons c cs ih =>
    rw [escapeXml_cons, escapeXml_single]
    by_cases h1 : c = '&'
    · subst h1
      simp only [escapeChar, if_pos rfl]
      simp [xmlSafe, startsEntity, entityTails, List.isPrefixOf, ih, quotChar, aposChar]
    by_cases h2 : c = '<'
    · subst h2
      simp [escapeChar, xmlSafe, startsEntity, entityTails, List.isPrefixOf, ih, quotChar,
        aposChar]
    by_cases h3 : c = '>'
    · subst h3
      simp [escapeChar, xmlSafe, startsEntity, entityTails, List.isPrefixOf, ih, quotChar,
        aposChar]
    by_cases h4 : c = quotChar
    · subst h4
      simp [escapeChar, xmlSafe, startsEntity, entityTails, List.isPrefixOf, ih,
        quotChar, aposChar]
    by_cases h5 : c = aposChar
    · subst h5
      simp [escapeChar, xmlSafe, startsEntity, entityTails, List.isPrefixOf, ih,
        quotChar, aposChar]
    · simp only [escapeChar, if_neg h1, if_neg h2, if_neg h3, if_neg h4, if_neg h5,
        List.singleton_append]
      rw [xmlSafe_cons_ordinary _ h1 h2 h3 h4 h5]
      exact ih

/-- C5.  Every caption-derived `<text>` content embedded by the text layout
engine is the escaped line, so it contains no unescaped XML-sensitive
character of the caption outside the five entities. -/
theorem svg_caption_escaped (text : List Char) (imageWidth imageHeight : ℤ)
    (options : OverlayOptions) (resolvedColor : List Char) (elem : TextElem)
    (helem : elem ∈
      (createTextSvg text imageWidth imageHeight options resolvedColor).textElems) :
    xmlSafe elem.content = true := by
  simp only [createTextSvg, List.mem_map] at helem
  obtain ⟨li, hmem, rfl⟩ := helem
  exact xmlSafe_escapeXml _

/-- Witness for C5: the caption `a&b` on a 1000×1000 image produces the
single escaped line `a&amp;b`. -/
theorem svg_caption_escaped_witness :
    xmlSafe (TextElem.mk 500 507 ['m', 'i', 'd', 'd', 'l', 'e'] 20 ['#', 'f', 'f', 'f']
      ['a', '&', 'a', 'm', 'p', ';', 'b']).content = true :=
  svg_caption_escaped ['a', '&', 'b'] 1000 1000
    ⟨50, 50, 20, 100, .center, .white, none, none, none, none⟩ ['#', 'f', 'f', 'f'] _ (by
      have hchars : jsFloorNum (jsDiv (((1000 : ℤ) : ℚ) * ((100 : ℚ) / 100))
          ((20 : ℚ) * (11/20))) = JsNum.val 90 := by
        norm_num [jsDiv, jsFloorNum]
      have hwrap : wrapText ['a', '&', 'b'] (jsFloorNum (jsDiv (((1000 : ℤ) : ℚ) *
          ((100 : ℚ) / 100)) ((20 : ℚ) * (11/20)))) = [['a', '&', 'b']] := by
        rw [hchars]
        norm_num [wrapText, wrapLoop, jsLeNum, splitSpace, List.splitOn, List.splitOnP,
          List.splitOnP.go]
        decide
      simp only [createTextSvg]
      rw [hwrap]
      norm_num [anchorOf, escapeXml, replaceAll, quotChar, aposChar]
      decide)

/-! ## Facts about the color analyzer -/

theorem quantize_128 : quantize 128 = 128 := by
  norm_num [quantize, jsRound]

/-- Feeding only mid-gray pixels keeps the histogram a single mid-gray
bucket (or empty): the quantised key of `(128,128,128)` is `(128,128,128)`
and the running average of constant 128 stays 128. -/
theorem foldl_addPixel_gray (pixels : List (ℕ × ℕ × ℕ))
    (h : ∀ p ∈ pixels, p = (128, 128, 128)) :
    ∀ m : List Bucket,
      (m = [] ∨ ∃ n : ℕ, m = [⟨(128, 128, 128), n + 1, ⟨128, 128, 128⟩⟩]) →
      (pixels.foldl addPixel m = [] ∨
        ∃ n : ℕ, pixels.foldl addPixel m = [⟨(128, 128, 128), n + 1, ⟨128, 128, 128⟩⟩]) := by
  induction pixels with
  | nil =>
    intro m hm
    simpa using hm
  | cons p ps ih =>
    intro m hm
    have hp : p = (128, 128, 128) := h p (by simp)
    rw [List.foldl_cons, hp]
    apply ih (fun q hq => h q (by simp [hq]))
    right
    rcases hm with rfl | ⟨n, rfl⟩
    · refine ⟨0, ?_⟩
      simp only [addPixel, quantize_128]
      norm_num
    · refine ⟨n + 1, ?_⟩
      simp only [addPixel, quantize_128]
      norm_num [Bucket.mk.injEq, RGB.mk.injEq]
      all_goals
        field_simp
        try ring

/-- C6.  An image whose sampled pixels are all pure mid-gray yields no
accent color: the single histogram bucket is rejected by the gray filter
(and its saturation is 0). -/
theorem accent_color_gray_null (pixels : List (ℕ × ℕ × ℕ))
    (h : ∀ p ∈ pixels, p = (128, 128, 128)) :
    extractAccentColor pixels = none := by
  have hhist := foldl_addPixel_gray pixels h [] (Or.inl rfl)
  simp only [extractAccentColor, extractDominantColors]
  rcases hhist with he | ⟨n, he⟩
  · rw [he]
    simp
  · rw [he]
    norm_num [isCandidateColor, getSaturation, List.mergeSort_singleton]

/-- Witness for C6: two sampled mid-gray pixels. -/
theorem accent_color_gray_null_witness :
    extractAccentColor [(128, 128, 128), (128, 128, 128)] = none :=
  accent_color_gray_null _ (by decide)

/-! ## Facts about WCAG contrast and text color selection -/

theorem srgbChannel_ten : srgbChannel 10 = 50/16473 := by
  simp only [srgbChannel]
  rw [if_pos (by push_cast; norm_num)]
  push_cast
  norm_num

theorem srgbChannel_zero : srgbChannel 0 = 0 := by
  simp only [srgbChannel]
  rw [if_pos (by push_cast; norm_num)]
  push_cast
  norm_num

theorem srgbChannel_white : srgbChannel 255 = 1 := by
  simp only [srgbChannel]
  rw [if_neg (by push_cast; norm_num)]
  have h : ((((255 : ℚ) : ℝ)) / 255 + 0.055) / 1.055 = 1 := by push_cast; norm_num
  rw [h, Real.one_rpow]

theorem srgbChannel_245_le_one : srgbChannel 245 ≤ 1 := by
  simp only [srgbChannel]
  rw [if_neg (by push_cast; norm_num)]
  apply Real.rpow_le_one ?_ ?_ (by norm_num)
  · push_cast
    norm_num
  · push_cast
    norm_num

theorem srgbChannel_245_ge : (884736/1000000 : ℝ) ≤ srgbChannel 245 := by
  simp only [srgbChannel]
  rw [if_neg (by push_cast; norm_num)]
  have hb : ((((245 : ℚ) : ℝ)) / 255 + 0.055) / 1.055 = 10361/10761 := by push_cast; norm_num
  rw [hb]
  have h1 : ((10361 : ℝ)/10761) ^ (3 : ℝ) ≤ ((10361 : ℝ)/10761) ^ (2.4 : ℝ) :=
    Real.rpow_le_rpow_of_exponent_ge (by norm_num) (by norm_num) (by norm_num)
  have h2 : ((10361 : ℝ)/10761) ^ (3 : ℝ) = ((10361 : ℝ)/10761) ^ (3 : ℕ) := by
    rw [← Real.rpow_natCast]
    norm_num
  have h3 : ((96 : ℝ)/100) ^ (3 : ℕ) ≤ ((10361 : ℝ)/10761) ^ (3 : ℕ) :=
    pow_le_pow_left₀ (by norm_num) (by norm_num) 3
  calc (884736/1000000 : ℝ) = ((96 : ℝ)/100) ^ (3 : ℕ) := by norm_num
    _ ≤ ((10361 : ℝ)/10761) ^ (3 : ℕ) := h3
    _ = ((10361 : ℝ)/10761) ^ (3 : ℝ) := h2.symm
    _ ≤ ((10361 : ℝ)/10761) ^ (2.4 : ℝ) := h1

theorem luminance_const (c : ℚ) : getRelativeLuminance ⟨c, c, c⟩ = srgbChannel c := by
  simp only [getRelativeLuminance]
  ring

theorem getContrastRatio_eq_of_le {c1 c2 : RGB}
    (h : getRelativeLuminance c1 ≤ getRelativeLuminance c2) :
    getContrastRatio c1 c2 =
      (getRelativeLuminance c2 + 0.05) / (getRelativeLuminance c1 + 0.05) := by
  simp only [getContrastRatio]
  rw [max_eq_right h, min_eq_left h]

theorem getContrastRatio_eq_of_ge {c1 c2 : RGB}
    (h : getRelativeLuminance c2 ≤ getRelativeLuminance c1) :
    getContrastRatio c1 c2 =
      (getRelativeLuminance c1 + 0.05) / (getRelativeLuminance c2 + 0.05) := by
  simp only [getContrastRatio]
  rw [max_eq_left h, min_eq_right h]

/-- C7.  Contrast selection: `getBestTextColor` answers `white` for the
near-black background `(10,10,10)` and `black` for the near-white
`(245,245,245)` (no accent supplied); in general it answers `accent`
exactly when a supplied accent reaches contrast 4.5 and beats both white
and black, and otherwise answers whichever of white/black has the larger
contrast ratio (white on ties, matching `whiteContrast >= blackContrast`). -/
theorem contrast_selection :
    getBestTextColor ⟨10, 10, 10⟩ none = .white ∧
    getBestTextColor ⟨245, 245, 245⟩ none = .black ∧
    (∀ bg a : RGB,
      getBestTextColor bg (some a) = .accent ↔
        (4.5 ≤ getContrastRatio bg a ∧
          getContrastRatio bg ⟨255, 255, 255⟩ ≤ getContrastRatio bg a ∧
          getContrastRatio bg ⟨0, 0, 0⟩ ≤ getContrastRatio bg a)) ∧
    (∀ bg : RGB, getBestTextColor bg none =
      if getContrastRatio bg ⟨0, 0, 0⟩ ≤ getContrastRatio bg ⟨255, 255, 255⟩ then
        .white
      else .black) ∧
    (∀ bg a : RGB,
      ¬(4.5 ≤ getContrastRatio bg a ∧
          getContrastRatio bg ⟨255, 255, 255⟩ ≤ getContrastRatio bg a ∧
          getContrastRatio bg ⟨0, 0, 0⟩ ≤ getContrastRatio bg a) →
      getBestTextColor bg (some a) =
        if getContrastRatio bg ⟨0, 0, 0⟩ ≤ getContrastRatio bg ⟨255, 255, 255⟩ then
          .white
        else .black) := by
  have hLw : getRelativeLuminance ⟨255, 255, 255⟩ = 1 :=
    (luminance_const 255).trans srgbChannel_white
  have hLb : getRelativeLuminance ⟨0, 0, 0⟩ = 0 :=
    (luminance_const 0).trans srgbChannel_zero
  refine ⟨?_, ?_, ?_, ?_, ?_⟩
  · have hL : getRelativeLuminance ⟨10, 10, 10⟩ = 50/16473 :=
      (luminance_const 10).trans srgbChannel_ten
    have hwC : getContrastRatio ⟨10, 10, 10⟩ ⟨255, 255, 255⟩ =
        (1 + 0.05) / ((50/16473 : ℝ) + 0.05) := by
      rw [getContrastRatio_eq_of_le (by rw [hL, hLw]; norm_num), hL, hLw]
    have hbC : getContrastRatio ⟨10, 10, 10⟩ ⟨0, 0, 0⟩ =
        ((50/16473 : ℝ) + 0.05) / (0 + 0.05) := by
      rw [getContrastRatio_eq_of_ge (by rw [hL, hLb]; norm_num), hL, hLb]
    simp only [getBestTextColor]
    rw [if_neg (by intro hc; norm_num at hc), hwC, hbC, if_pos (by norm_num)]
  · have hL : getRelativeLuminance ⟨245, 245, 245⟩ = srgbChannel 245 := luminance_const 245
    have hge := srgbChannel_245_ge
    have hle := srgbChannel_245_le_one
    have hwC : getContrastRatio ⟨245, 245, 245⟩ ⟨255, 255, 255⟩ =
        (1 + 0.05) / (srgbChannel 245 + 0.05) := by
      rw [getContrastRatio_eq_of_le (by rw [hL, hLw]; linarith), hL, hLw]
    have hbC : getContrastRatio ⟨245, 245, 245⟩ ⟨0, 0, 0⟩ =
        (srgbChannel 245 + 0.05) / (0 + 0.05) := by
      rw [getContrastRatio_eq_of_ge (by rw [hL, hLb]; linarith), hL, hLb]
    simp only [getBestTextColor]
    rw [if_neg (by intro hc; norm_num at hc), hwC, hbC, if_neg]
    intro hc
    have h05 : (0 : ℝ) < srgbChannel 245 + 0.05 := by linarith
    rw [div_le_div_iff₀ (by norm_num) h05] at hc
    nlinarith
  · intro bg a
    simp only [getBestTextColor]
    split_ifs with h h2 <;> simp [h]
  · intro bg
    simp only [getBestTextColor]
    rw [if_neg (by intro hc; norm_num at hc)]
  · intro bg a h
    simp only [getBestTextColor]
    rw [if_neg h]

/-- Witness for C7: a pure black accent on the near-black background fails
the 4.5 threshold, so the otherwise-branch applies. -/
theorem contrast_selection_witness :
    getBestTextColor ⟨10, 10, 10⟩ (some ⟨0, 0, 0⟩) =
      (if getContrastRatio ⟨10, 10, 10⟩ ⟨0, 0, 0⟩ ≤
          getContrastRatio ⟨10, 10, 10⟩ ⟨255, 255, 255⟩ then
        TextColorOption.white
      else TextColorOption.black) :=
  contrast_selection.2.2.2.2 ⟨10, 10, 10⟩ ⟨0, 0, 0⟩ (by
    intro hc
    have hL : getRelativeLuminance ⟨10, 10, 10⟩ = 50/16473 :=
      (luminance_const 10).trans srgbChannel_ten
    have hLb : getRelativeLuminance ⟨0, 0, 0⟩ = 0 :=
      (luminance_const 0).trans srgbChannel_zero
    have hbC : getContrastRatio ⟨10, 10, 10⟩ ⟨0, 0, 0⟩ =
        ((50/16473 : ℝ) + 0.05) / (0 + 0.05) := by
      rw [getContrastRatio_eq_of_ge (by rw [hL, hLb]; norm_num), hL, hLb]
    have h45 := hc.1
    rw [hbC] at h45
    norm_num at h45)

/-! ## Error handling of the compositor -/

/-- C8 counterexample: the claim says a non-positive `fontSize` makes the
overlay operation fail fast, but the service performs no `fontSize`
validation — with `fontSize = 0` the call completes and produces output
(the wrap budget `charsPerLine` becomes `Infinity`, not an error). -/
theorem fontsize_zero_produces_output :
    (overlayCaption (.valid ⟨some 1000, some 1000, []⟩) ['h', 'i']
      { noOptions with fontSize := some 0 }).isOk = true := rfl

/-- C8 amended: the overlay operation performs no `fontSize` validation;
for every non-positive `fontSize` the call on a decodable image completes
and returns output instead of failing fast. -/
theorem fontsize_nonpositive_completes (img : SharpImage) (caption : List Char)
    (options : PartialOverlayOptions) (fontSize : ℚ) (hfs : fontSize ≤ 0)
    (hopt : options.fontSize = some fontSize) :
    ∃ out, overlayCaption (.valid img) caption options = .ok out :=
  ⟨_, rfl⟩

/-- Witness for the amended C8 at `fontSize = -5`. -/
theorem fontsize_nonpositive_completes_witness :
    ∃ out, overlayCaption (.valid ⟨some 800, some 600, []⟩) ['h', 'i']
      { noOptions with fontSize := some (-5) } = .ok out :=
  fontsize_nonpositive_completes ⟨some 800, some 600, []⟩ ['h', 'i']
    { noOptions with fontSize := some (-5) } (-5) (by norm_num) rfl

/-- C9.  The batch loop processes items sequentially in input order with
per-item options merged over the shared defaults: when every item
succeeds, the result is the ordered list of per-item outputs; when an item
fails, its error is rethrown for the whole batch and no partial list is
returned. -/
theorem batch_order_and_failure {ε β : Type}
    (overlayFromUrl : List Char → List Char → PartialOverlayOptions → Except ε β)
    (defaultOptions : PartialOverlayOptions) :
    (∀ (items : List BatchItem) (g : BatchItem → β),
      (∀ item ∈ items, overlayFromUrl item.imageUrl item.caption
        (mergePartial defaultOptions (item.options.getD noOptions)) = .ok (g item)) →
      batchOverlayCaptions overlayFromUrl items defaultOptions = .ok (items.map g)) ∧
    (∀ (pre : List BatchItem) (bad : BatchItem) (post : List BatchItem) (e : ε),
      (∀ item ∈ pre, ∃ b, overlayFromUrl item.imageUrl item.caption
        (mergePartial defaultOptions (item.options.getD noOptions)) = .ok b) →
      overlayFromUrl bad.imageUrl bad.caption
        (mergePartial defaultOptions (bad.options.getD noOptions)) = .error e →
      batchOverlayCaptions overlayFromUrl (pre ++ bad :: post) defaultOptions = .error e) := by
  constructor
  · intro items g
    induction items with
    | nil =>
      intro h
      rfl
    | cons item rest ih =>
      intro h
      have hhead := h item (List.mem_cons_self _ _)
      have htail := ih fun it hit => h it (List.mem_cons_of_mem _ hit)
      simp [batchOverlayCaptions, hhead, htail]
  · intro pre bad post e
    induction pre with
    | nil =>
      intro hpre herr
      simp [batchOverlayCaptions, herr]
    | cons item rest ih =>
      intro hpre herr
      obtain ⟨b, hb⟩ := hpre item (List.mem_cons_self _ _)
      have htail := ih (fun it hit => hpre it (List.mem_cons_of_mem _ hit)) herr
      simp [batchOverlayCaptions, hb, htail]

/-- Witness for C9: a two-item batch whose second item fails propagates
that error for the whole batch. -/
theorem batch_order_and_failure_witness :
    batchOverlayCaptions
      (fun imageUrl caption opts =>
        if caption = [] then Except.error 3 else Except.ok caption.length)
      [⟨['u'], ['a', 'b'], none⟩, ⟨['v'], [], none⟩] noOptions = Except.error 3 :=
  (batch_order_and_failure
      (fun imageUrl caption opts =>
        if caption = [] then Except.error 3 else Except.ok caption.length)
      noOptions).2
    [⟨['u'], ['a', 'b'], none⟩] ⟨['v'], [], none⟩ [] 3
    (by
      intro item hitem
      simp only [List.mem_singleton] at hitem
      subst hitem
      exact ⟨2, by simp⟩)
    (by simp)

theorem wrapText_nil (maxChars : JsNum) : wrapText [] maxChars = [] := by
  have hsplit : splitSpace [] = [[]] := rfl
  simp only [wrapText, hsplit, wrapLoop]
  split_ifs <;> simp_all

theorem createTextSvg_empty (imageWidth imageHeight : ℤ) (options : OverlayOptions)
    (resolvedColor : List Char) :
    createTextSvg [] imageWidth imageHeight options resolvedColor =
      ⟨imageWidth, imageHeight, []⟩ := by
  simp [createTextSvg, wrapText_nil]

/-- C10.  An empty caption is handled gracefully: `wrapText` returns no
lines for any budget, `createTextSvg` emits a full-size SVG with zero
`<text>` elements, and `overlayCaption` completes without error with that
empty overlay on the re-encoded image. -/
theorem empty_caption_graceful :
    (∀ maxChars : JsNum, wrapText [] maxChars = []) ∧
    (∀ (imageWidth imageHeight : ℤ) (options : OverlayOptions) (resolvedColor : List Char),
      createTextSvg [] imageWidth imageHeight options resolvedColor =
        ⟨imageWidth, imageHeight, []⟩) ∧
    (∀ (img : SharpImage) (options : PartialOverlayOptions),
      ∃ out, overlayCaption (.valid img) [] options = .ok out ∧
        out.overlay = ⟨jsOrInt img.metaWidth 1080, jsOrInt img.metaHeight 1080, []⟩) :=
  ⟨wrapText_nil, createTextSvg_empty, fun img options =>
    ⟨_, rfl, createTextSvg_empty _ _ _ _⟩⟩

end Overlay
